import Mathlib

/-!
Verification development for the rokoko builder/vector core.

The Rust source stores heterogeneous values in a compile-time type list
(`Empty` / `With<D, N>`) and resolves lookups by type identity
(`GetData` / `GetFn`).  Following the spec's own design notes, type
identity is embedded as an explicit, decidable tag attached to every
node, and the static trait dispatch becomes a recursive function over
the chain.  The fixed-size vector `vec<T, N>` is embedded as a function
out of `Fin N`, the unsafe pointer-based `new` constructor as an
explicit list of (index, value) writes applied to an uninitialized
memory `Nat → Option T`, and the window builder's `create` as a
function producing either a panic message or a trace of effects and
callback invocations.
-/

namespace Rokoko

/-- The type list: `Empty` is the terminator, `With` the connector owning
one value and the rest of the chain (`src/window/build/type_list.rs`).
Node payloads have type `V`; the compile-time type of a payload is
recovered by a tag function. -/
inductive TypeList (V : Type) where
  | empty : TypeList V
  | with_ (data : V) (next : TypeList V) : TypeList V
deriving Repr, DecidableEq

namespace TypeList

variable {V Tag : Type}

/-- `GetData<T>::get` (`src/window/build/getters.rs`): at `Empty` return
`None`; at `With<E, N>` return `Some(&self.data)` if `E`'s tag equals the
requested tag, otherwise recurse into `next`.  `tagOf` plays the role of
the compile-time type of a node's payload. -/
def getData (tagOf : V → Tag) [DecidableEq Tag] (t : Tag) : TypeList V → Option V
  | .empty => none
  | .with_ d n => if tagOf d = t then some d else getData tagOf t n

/-- The chain's nodes, head (most recently added) first. -/
def toList : TypeList V → List V
  | .empty => []
  | .with_ d n => d :: toList n

/-- The chain whose head-first node list is `l`. -/
def ofList : List V → TypeList V
  | [] => .empty
  | v :: rest => .with_ v (ofList rest)

/-- A sequence of builder calls: each call wraps the previous chain in a
new node (`WindowBuilder::on_event` and the generated data setters in
`src/window/build/mod.rs` produce `With { data, next: self.to_inner() }`).
Starting from `Empty`, the insertions in `l` are performed left to
right. -/
def insertAll (l : List V) : TypeList V := l.foldl (fun c v => .with_ v c) .empty

end TypeList

/-- A node payload as seen by `GetFn` (`src/window/build/getters.rs`):
either some data that is not an `FnContainer`, or an `FnContainer`
(`src/window/build/fn_container.rs`) holding a callback `cb` registered
under the callback identity `id`. -/
inductive FEntry (D CT CB : Type) where
  | plain (d : D) : FEntry D CT CB
  | fnc (id : CT) (cb : CB) : FEntry D CT CB
deriving Repr, DecidableEq

/-- `GetFn<ID>::get`: at `Empty` return `None`; skip nodes that are not
`FnContainer`s (the `NotFnContainer` impl) and `FnContainer`s whose
identity differs from `ID` (the `Equality<ID, CID>: NotEq` impl); at an
`FnContainer` with identity `ID` return `Some(&mut self.data.cb)`. -/
def getFn {D CT CB : Type} [DecidableEq CT] (id : CT) :
    TypeList (FEntry D CT CB) → Option CB
  | .empty => none
  | .with_ (.plain _) n => getFn id n
  | .with_ (.fnc cid cb) n => if cid = id then some cb else getFn id n

/-- Mutation through the `&mut` returned by `GetFn::get`: the callback of
the first `FnContainer` node with identity `id` (the node whose `cb`
field `get` returns a reference into) is replaced by `f` of its old
value; every other node is untouched and the chain is not
restructured. -/
def modifyFn {D CT CB : Type} [DecidableEq CT] (id : CT) (f : CB → CB) :
    TypeList (FEntry D CT CB) → TypeList (FEntry D CT CB)
  | .empty => .empty
  | .with_ (.plain d) n => .with_ (.plain d) (modifyFn id f n)
  | .with_ (.fnc cid cb) n =>
    if cid = id then .with_ (.fnc cid (f cb)) n
    else .with_ (.fnc cid cb) (modifyFn id f n)

/-- The structural skeleton of an `FEntry`: data nodes keep their data,
callback nodes keep their identity (only the stored callback value is
erased). -/
def FEntry.skel {D CT CB : Type} : FEntry D CT CB → Sum D CT
  | .plain d => Sum.inl d
  | .fnc id _ => Sum.inr id

/-- The structural skeleton of a chain of `FEntry` nodes. -/
def chainSkel {D CT CB : Type} (c : TypeList (FEntry D CT CB)) : List (Sum D CT) :=
  c.toList.map FEntry.skel

/-- `vec<T, N>` (`src/math/vec/mod.rs`): exactly `N` contiguous elements
of type `T`, embedded as a function out of `Fin N`. -/
structure vec (T : Type) (N : Nat) where
  data : Fin N → T
deriving DecidableEq

namespace vec

variable {T U R : Type} {N : Nat}

/-- Checked indexed access (`Index for vec`, `src/math/vec/ops.rs`):
`&self.0[index]` with the bound carried by `Fin N`. -/
def get (v : vec T N) (i : Fin N) : T := v.data i

/-- `vec::single` (`src/math/vec/mod.rs`): a vec filled with `value`s. -/
def single (value : T) : vec T N := ⟨fun _ => value⟩

/-- `vec::from_array` with the array given as a function out of `Fin N`. -/
def from_array (a : Fin N → T) : vec T N := ⟨a⟩

/-- `vec::apply_binary` (`src/math/vec/ops.rs`): the loop writes
`result[i] = op(self[i], rhs[i])` for every `i < N` into an uninitialized
result, so the constructed vec holds `op` of the element pairs. -/
def apply_binary (v : vec T N) (rhs : vec U N) (op : T → U → R) : vec R N :=
  ⟨fun i => op (v.data i) (rhs.data i)⟩

/-- `vec::apply_unary` (`src/math/vec/ops.rs`). -/
def apply_unary (v : vec T N) (op : T → R) : vec R N :=
  ⟨fun i => op (v.data i)⟩

/-- The loop of `vec::apply_binary_bool` (`src/math/vec/ops.rs`) from
index `i` on: if `op` on the pair at `i` is false, return false at once
(short-circuit); otherwise continue with `i + 1`; when `i` reaches `N`,
return true. -/
def apply_binary_bool_loop (v : vec T N) (rhs : vec U N) (op : T → U → Bool) (i : Nat) : Bool :=
  if h : i < N then
    if op (v.data ⟨i, h⟩) (rhs.data ⟨i, h⟩) then apply_binary_bool_loop v rhs op (i + 1)
    else false
  else true
termination_by N - i

/-- `vec::apply_binary_bool`: the loop started at index 0. -/
def apply_binary_bool (v : vec T N) (rhs : vec U N) (op : T → U → Bool) : Bool :=
  apply_binary_bool_loop v rhs op 0

/-- `PartialEq for vec` (`src/math/vec/ops.rs`): `self.apply_binary_bool
(*other, eq)` where `eq` is the element equality of `T`.  Rust only
requires `T: PartialEq<T>`, so the element equality is an arbitrary
boolean predicate `eqT`. -/
def eqv (eqT : T → T → Bool) (a b : vec T N) : Bool :=
  apply_binary_bool a b eqT

/-- The `Add for vec` impl generated by `impl_bin_ops_for_vec!`
(`rokoko-macro/src/lib/vec.rs`): `fn add(self, rhs) =
self.apply_binary(rhs, add)` with `add` the element addition. -/
instance [Add T] : Add (vec T N) := ⟨fun a b => a.apply_binary b (fun x y => x + y)⟩

end vec

mutual

/-- A `Piece<T>` argument of `vec::new` (`src/math/vec/new.rs`): a single
convertible scalar (held already converted to `T`, the result of
`T::from(self)`), an array `[U; len]` of pieces of a type `U` whose
declared slot count is `k`, a `vec<U, len>` of such pieces (its `embed`
delegates to the inner array), or a tuple of pieces (arity capped at 10
by the macro expansion). -/
inductive Piece (T : Type) where
  | scalar (v : T) : Piece T
  | arr (k : Nat) (es : PieceList T) : Piece T
  | vecp (k : Nat) (es : PieceList T) : Piece T
  | tup (es : PieceList T) : Piece T

/-- A sequence of pieces (array elements or tuple members). -/
inductive PieceList (T : Type) where
  | nil : PieceList T
  | cons (p : Piece T) (ps : PieceList T) : PieceList T

end

/-- Number of pieces in a sequence. -/
def PieceList.len {T : Type} : PieceList T → Nat
  | .nil => 0
  | .cons _ ps => ps.len + 1

mutual

/-- `Piece::N`, the declared slot count: 1 for a scalar, `N * U::N` for an
array or vec of `N` elements of declared element count `k`, and
`0 + T0::N + T1::N + ...` for a tuple. -/
def Piece.slots {T : Type} : Piece T → Nat
  | .scalar _ => 1
  | .arr k es => es.len * k
  | .vecp k es => es.len * k
  | .tup es => es.sumSlots

/-- Sum of the declared slot counts of a sequence of pieces. -/
def PieceList.sumSlots {T : Type} : PieceList T → Nat
  | .nil => 0
  | .cons p ps => p.slots + ps.sumSlots

end

mutual

/-- The writes performed by `Piece::embed` at destination offset `o`, in
program order, as (index, value) pairs.  A scalar writes its converted
value at `o`.  An array element `i` embeds at `o + i * k` (`embed`
advances `place` by the declared `U::N = k` after each element); a vec
delegates to its array.  A tuple member embeds at `o` plus the sum of
the declared counts of the preceding members
(`self.i.embed(offset(place, 0 + T0::N + ... ))` in the macro
expansion). -/
def Piece.writes {T : Type} : Piece T → Nat → List (Nat × T)
  | .scalar v, o => [(o, v)]
  | .arr k es, o => es.writesStride k o
  | .vecp k es, o => es.writesStride k o
  | .tup es, o => es.writesSeq o

/-- Writes of array elements: each element at stride `k` from the
previous one. -/
def PieceList.writesStride {T : Type} (k : Nat) : PieceList T → Nat → List (Nat × T)
  | .nil, _ => []
  | .cons p ps, o => p.writes o ++ ps.writesStride k (o + k)

/-- Writes of tuple members: each member at the cumulative offset of the
preceding members' declared slot counts. -/
def PieceList.writesSeq {T : Type} : PieceList T → Nat → List (Nat × T)
  | .nil, _ => []
  | .cons p ps, o => p.writes o ++ ps.writesSeq (o + p.slots)

end

mutual

/-- The converted inputs carried by a piece, in left-to-right emission
order. -/
def Piece.flatten {T : Type} : Piece T → List T
  | .scalar v => [v]
  | .arr _ es => es.flattenAll
  | .vecp _ es => es.flattenAll
  | .tup es => es.flattenAll

/-- The converted inputs of a sequence of pieces, in order. -/
def PieceList.flattenAll {T : Type} : PieceList T → List T
  | .nil => []
  | .cons p ps => p.flatten ++ ps.flattenAll

end

mutual

/-- Well-formedness imposed by Rust's types: all elements of an array or
vec piece have the declared slot count `k` of their common type `U`
(and are themselves well formed); a tuple has at most 10 members (the
macro is expanded with upper bound 10), all well formed. -/
def Piece.wfm {T : Type} : Piece T → Bool
  | .scalar _ => true
  | .arr k es => es.allWf && es.allSlots k
  | .vecp k es => es.allWf && es.allSlots k
  | .tup es => decide (es.len ≤ 10) && es.allWf

/-- All pieces of a sequence are well formed. -/
def PieceList.allWf {T : Type} : PieceList T → Bool
  | .nil => true
  | .cons p ps => p.wfm && ps.allWf

/-- All pieces of a sequence have declared slot count `k`. -/
def PieceList.allSlots {T : Type} (k : Nat) : PieceList T → Bool
  | .nil => true
  | .cons p ps => decide (p.slots = k) && ps.allSlots k

end

/-- A fixed-size storage of `T`s under construction: `none` at indices
not yet written (`vec::uninit`). -/
def uninitMem (T : Type) : Nat → Option T := fun _ => none

/-- Apply a list of (index, value) writes to a memory, in order; a later
write to the same index overwrites an earlier one. -/
def applyWrites {T : Type} (m : Nat → Option T) : List (Nat × T) → Nat → Option T
  | [], i => m i
  | (j, v) :: rest, i => applyWrites (fun x => if x = j then some v else m x) rest i

/-- The writes that place the elements of `l` at consecutive indices
starting at `o`. -/
def writesOfList {T : Type} : List T → Nat → List (Nat × T)
  | [], _ => []
  | v :: vs, o => (o, v) :: writesOfList vs (o + 1)

/-- The default-fill loop of `New::call` (`src/math/vec/new.rs`): the
pointer is seeded at index `S = Args::N` and the loop writes
`Default::default()` and advances it once per iteration, for
`N - S` iterations — i.e. the default value at indices `S, S+1, ...,
N-1`. -/
def fillWrites {T : Type} (S N : Nat) (d : T) : List (Nat × T) :=
  writesOfList (List.replicate (N - S) d) S

/-- `New::call` (`src/math/vec/new.rs`): assert `Args::N <= N` with
message "too many args"; create an uninitialized vec; fill indices
`Args::N..N` with the default value `d`; then `embed` the args at the
start of the storage. -/
def New.call {T : Type} (N : Nat) (d : T) (args : Piece T) : Except String (Nat → Option T) :=
  if args.slots ≤ N then
    .ok (applyWrites (applyWrites (uninitMem T) (fillWrites args.slots N d)) (args.writes 0))
  else .error "too many args"

/-- The indices of the memory accesses of a write list. -/
def writeIndices {T : Type} (ws : List (Nat × T)) : List Nat := ws.map Prod.fst

/-- The tags of the `WindowBuilder` configuration entries: the generated
zero-or-one-field data types `Title`, `Size`, `Maximized`,
`SizeIsLogical` and the callback identities `OnClose`, `OnInit`,
`OnExit` (`config!` invocation in `src/window/build/mod.rs`). -/
inductive BTag where
  | title | size | maximized | sizeIsLogical | onClose | onInit | onExit
deriving Repr, DecidableEq

/-- A `WindowBuilder` chain node: a data entry (`Title(&str)`,
`Size(vec2)`, `Maximized`, `SizeIsLogical`) or an `FnContainer` holding
a registered callback.  The numeric content of `Size` plays no role in
`create`'s checks, so the two components of the `vec2` are embedded as
naturals; callbacks are opaque values of type `CB`. -/
inductive BEntry (CB : Type) where
  | title (s : String) : BEntry CB
  | size (w h : Nat) : BEntry CB
  | maximized : BEntry CB
  | sizeIsLogical : BEntry CB
  | onClose (cb : CB) : BEntry CB
  | onInit (cb : CB) : BEntry CB
  | onExit (cb : CB) : BEntry CB
deriving DecidableEq

/-- The compile-time type (tag) of a builder chain entry. -/
def BEntry.tag {CB : Type} : BEntry CB → BTag
  | .title _ => .title
  | .size _ _ => .size
  | .maximized => .maximized
  | .sizeIsLogical => .sizeIsLogical
  | .onClose _ => .onClose
  | .onInit _ => .onInit
  | .onExit _ => .onExit

namespace WindowBuilder

variable {CB : Type}

/-- `data.title()`: the generated `TitleTrait` accessor is `GetData` at
type `Title`; `if let Some(Title(title))` extracts the payload. -/
def title (c : TypeList (BEntry CB)) : Option String :=
  match TypeList.getData BEntry.tag .title c with
  | some (.title s) => some s
  | _ => none

/-- `data.size()`: `GetData` at type `Size`. -/
def size (c : TypeList (BEntry CB)) : Option (Nat × Nat) :=
  match TypeList.getData BEntry.tag .size c with
  | some (.size w h) => some (w, h)
  | _ => none

/-- `data.maximized()`: `GetData` at type `Maximized`. -/
def maximized (c : TypeList (BEntry CB)) : Option Unit :=
  match TypeList.getData BEntry.tag .maximized c with
  | some .maximized => some ()
  | _ => none

/-- `data.size_is_logical()`: `GetData` at type `SizeIsLogical`. -/
def size_is_logical (c : TypeList (BEntry CB)) : Option Unit :=
  match TypeList.getData BEntry.tag .sizeIsLogical c with
  | some .sizeIsLogical => some ()
  | _ => none

/-- `data.on_close()`: `GetFn` at callback identity `OnClose`. -/
def on_close (c : TypeList (BEntry CB)) : Option CB :=
  match TypeList.getData BEntry.tag .onClose c with
  | some (.onClose cb) => some cb
  | _ => none

/-- `data.on_init()`: `GetFn` at callback identity `OnInit`. -/
def on_init (c : TypeList (BEntry CB)) : Option CB :=
  match TypeList.getData BEntry.tag .onInit c with
  | some (.onInit cb) => some cb
  | _ => none

/-- `data.on_exit()`: `GetFn` at callback identity `OnExit`. -/
def on_exit (c : TypeList (BEntry CB)) : Option CB :=
  match TypeList.getData BEntry.tag .onExit c with
  | some (.onExit cb) => some cb
  | _ => none

end WindowBuilder

/-- `winit::dpi::Size`: the logical / physical size variants handed to
`with_inner_size`. -/
inductive WinitSize where
  | Logical (w h : Nat) : WinitSize
  | Physical (w h : Nat) : WinitSize
deriving Repr, DecidableEq

/-- An "apply effect" call on the external `WinitWindowBuilder`
collaborator. -/
inductive WEffect where
  | withTitle (s : String) : WEffect
  | withInnerSize (sz : WinitSize) : WEffect
  | withMaximized (b : Bool) : WEffect
deriving Repr, DecidableEq

/-- One observable step of `WindowBuilder::create`: an effect applied to
the external builder, the window construction, a callback invocation
(tagged with the callback slot it was looked up from), or the start of
the event loop. -/
inductive TraceEv (CB : Type) where
  | effect (e : WEffect) : TraceEv CB
  | windowBuilt : TraceEv CB
  | invoked (t : BTag) (cb : CB) : TraceEv CB
  | loopStarted : TraceEv CB
deriving DecidableEq

/-- An event delivered to the `event_loop.run` closure. -/
inductive InEvent where
  | userClose | closeRequested | otherEvent
deriving Repr, DecidableEq

namespace WindowBuilder

variable {CB : Type}

/-- The `event_loop.run` closure (`src/window/build/mod.rs`), folded over
the externally delivered events: once `control_flow` is `Exit` the
closure returns immediately; `UserEvent::Close` invokes the `on_exit`
callback (if any) and sets `Exit`; `WindowEvent::CloseRequested` invokes
the `on_close` callback if present (otherwise `window_ref.close()` only
sends a `UserEvent::Close` through the proxy, delivered as a later
event); any other event does nothing. -/
def runLoop (c : TypeList (BEntry CB)) : List InEvent → Bool → List (TraceEv CB)
  | [], _ => []
  | e :: rest, exited =>
    if exited then runLoop c rest exited
    else
      match e with
      | .userClose =>
        (match on_exit c with
         | some cb => [.invoked .onExit cb]
         | none => []) ++ runLoop c rest true
      | .closeRequested =>
        (match on_close c with
         | some cb => [.invoked .onClose cb]
         | none => []) ++ runLoop c rest false
      | .otherEvent => runLoop c rest false

/-- `WindowBuilder::create` (`src/window/build/mod.rs`).  In source
order: apply the title (or the default "rokoko window"); if `size` is
present, assert that `maximized` is absent (message naming both fields)
and apply the inner size — logical when `size_is_logical` is present,
physical otherwise; if `size` is absent but `size_is_logical` is
present, panic; if `maximized` is present, apply it; build the window
through the external collaborator (`buildOk = false` models its
failure, propagated by `?`); invoke the `on_init` callback if present;
start the event loop and dispatch `events`.  Errors are the panic /
`OsError` messages; success is the trace of steps. -/
def create (c : TypeList (BEntry CB)) (events : List InEvent) (buildOk : Bool) :
    Except String (List (TraceEv CB)) :=
  let titleEff : TraceEv CB :=
    .effect (.withTitle (match title c with
      | some s => s
      | none => "rokoko window"))
  let sizeStep : Except String (List (TraceEv CB)) :=
    match size c with
    | some (w, h) =>
      if (maximized c).isSome then .error "cannot have both `size` and `maximized`"
      else
        .ok [.effect (.withInnerSize (match size_is_logical c with
          | some _ => WinitSize.Logical w h
          | none => WinitSize.Physical w h))]
    | none =>
      if (size_is_logical c).isSome then
        .error "cannot have specification that `size` is logical without specification of the `size` itself"
      else .ok []
  match sizeStep with
  | .error e => .error e
  | .ok sizeEffs =>
    let maxEffs : List (TraceEv CB) :=
      if (maximized c).isSome then [.effect (.withMaximized true)] else []
    if buildOk then
      .ok ([titleEff] ++ sizeEffs ++ maxEffs ++ [.windowBuilt]
        ++ (match on_init c with
            | some cb => [.invoked .onInit cb]
            | none => [])
        ++ [.loopStarted] ++ runLoop c events false)
    else .error "os error"

end WindowBuilder

/-- Is a trace step an invocation of the `on_init` callback? -/
def isInitInvocation {CB : Type} : TraceEv CB → Bool
  | .invoked .onInit _ => true
  | _ => false

section TypeListTheorems

variable {V Tag : Type}

theorem TypeList.toList_ofList (l : List V) : TypeList.toList (TypeList.ofList l) = l := by
  induction l with
  | nil => rfl
  | cons v rest ih => simp [TypeList.ofList, TypeList.toList, ih]

theorem TypeList.insertAll_eq_ofList_reverse (l : List V) :
    TypeList.insertAll l = TypeList.ofList l.reverse := by
  have key : ∀ (l : List V) (c : TypeList V),
      l.foldl (fun c v => TypeList.with_ v c) c
        = l.reverse.foldr (fun v c => TypeList.with_ v c) c := by
    intro l
    induction l with
    | nil => intro c; rfl
    | cons v rest ih =>
      intro c
      simp only [List.foldl_cons, ih, List.reverse_cons, List.foldr_append, List.foldr_cons,
        List.foldr_nil]
  have base : ∀ (l : List V),
      l.foldr (fun v c => TypeList.with_ v c) TypeList.empty = TypeList.ofList l := by
    intro l
    induction l with
    | nil => rfl
    | cons v rest ih => simp only [List.foldr_cons, ih]; rfl
  rw [TypeList.insertAll, key, base]

/-- Lookup on a chain returns the first head-first match. -/
theorem TypeList.getData_eq_find (tagOf : V → Tag) [DecidableEq Tag] (t : Tag)
    (c : TypeList V) :
    TypeList.getData tagOf t c = c.toList.find? (fun v => tagOf v = t) := by
  induction c with
  | empty => rfl
  | with_ d n ih =>
    simp only [TypeList.getData, TypeList.toList, List.find?]
    by_cases h : tagOf d = t
    · simp [h]
    · simp [h, ih]

theorem find?_eq_of_nodup_key [DecidableEq Tag] {Val : Type} (l : List (Tag × Val))
    (hnd : (l.map Prod.fst).Nodup) (tv : Tag × Val) (hmem : tv ∈ l) :
    l.find? (fun x => x.1 = tv.1) = some tv := by
  induction l with
  | nil => cases hmem
  | cons a rest ih =>
    simp only [List.map_cons, List.nodup_cons] at hnd
    rcases List.mem_cons.mp hmem with h | h
    · subst h
      rw [List.find?_cons_of_pos _ (by simp)]
    · have hne : a.1 ≠ tv.1 := by
        intro he
        exact hnd.1 (he ▸ List.mem_map_of_mem Prod.fst h)
      rw [List.find?_cons_of_neg _ (by simp [hne])]
      exact ih hnd.2 h

end TypeListTheorems

/-- C2: for every TypeList chain built by N insertions with pairwise
distinct tags, `GetData::get` at each of the N inserted tags returns
Some of exactly the value inserted under that tag, and at any
never-inserted tag returns None (the non-exceptional not-found result,
reached at the `Empty` terminator). -/
theorem getData_insertAll_distinct {Tag Val : Type} [DecidableEq Tag]
    (entries : List (Tag × Val)) (hnd : (entries.map Prod.fst).Nodup) :
    (∀ tv ∈ entries,
      TypeList.getData Prod.fst tv.1 (TypeList.insertAll entries) = some tv)
    ∧ (∀ t, t ∉ entries.map Prod.fst →
      TypeList.getData Prod.fst t (TypeList.insertAll entries) = none) := by
  have hrw : ∀ t, TypeList.getData Prod.fst t (TypeList.insertAll entries)
      = entries.reverse.find? (fun x => x.1 = t) := by
    intro t
    rw [TypeList.insertAll_eq_ofList_reverse, TypeList.getData_eq_find,
      TypeList.toList_ofList]
  constructor
  · intro tv hmem
    rw [hrw]
    exact find?_eq_of_nodup_key entries.reverse
      (by rw [List.map_reverse]; exact List.nodup_reverse.mpr hnd) tv
      (List.mem_reverse.mpr hmem)
  · intro t hnotin
    rw [hrw]
    apply List.find?_eq_none.mpr
    intro x hx
    simp only [decide_eq_true_eq]
    intro he
    exact hnotin (he ▸ List.mem_map_of_mem Prod.fst (List.mem_reverse.mp hx))

/-- C2 witness: a chain built by inserting (1, 10) then (2, 20); looking
up tags 1 and 2 returns the inserted values, looking up the
never-inserted tag 3 returns none. -/
theorem getData_insertAll_distinct_witness :
    TypeList.getData Prod.fst 1
        (TypeList.insertAll [((1 : Nat), (10 : Nat)), (2, 20)]) = some (1, 10)
    ∧ TypeList.getData Prod.fst 2
        (TypeList.insertAll [((1 : Nat), (10 : Nat)), (2, 20)]) = some (2, 20)
    ∧ TypeList.getData Prod.fst 3
        (TypeList.insertAll [((1 : Nat), (10 : Nat)), (2, 20)]) = none :=
  ⟨(getData_insertAll_distinct [(1, 10), (2, 20)] (by decide)).1 (1, 10) (by decide),
   (getData_insertAll_distinct [(1, 10), (2, 20)] (by decide)).1 (2, 20) (by decide),
   (getData_insertAll_distinct [(1, 10), (2, 20)] (by decide)).2 3 (by decide)⟩

/-- C3: on a chain holding two or more nodes with the same tag, lookup
returns the value of the first matching node from the head; and since a
builder call prepends its node, the most-recently-added value for a tag
shadows all older values: looking the tag up on the wrapped chain
returns the new head's value. -/
theorem getData_first_match_shadows {Tag Val : Type} [DecidableEq Tag]
    (c : TypeList (Tag × Val)) (t : Tag) (v : Tag × Val)
    (hdup : 2 ≤ c.toList.countP (fun x => x.1 = t)) :
    TypeList.getData Prod.fst t c = c.toList.find? (fun x => x.1 = t)
    ∧ (v.1 = t → TypeList.getData Prod.fst t (TypeList.with_ v c) = some v) := by
  refine ⟨TypeList.getData_eq_find Prod.fst t c, ?_⟩
  intro hv
  simp [TypeList.getData, hv]

/-- C3 witness: a chain with two nodes tagged 1 (the head holding 10,
the older one holding 20); lookup returns the head's 10, and prepending
(1, 30) makes lookup return 30. -/
theorem getData_first_match_shadows_witness :
    TypeList.getData Prod.fst 1
        (TypeList.ofList [((1 : Nat), (10 : Nat)), (1, 20)])
      = (TypeList.ofList [((1 : Nat), (10 : Nat)), (1, 20)]).toList.find?
          (fun x => x.1 = 1)
    ∧ TypeList.getData Prod.fst 1
        (TypeList.with_ (1, 30) (TypeList.ofList [((1 : Nat), (10 : Nat)), (1, 20)]))
      = some (1, 30) :=
  ⟨(getData_first_match_shadows (TypeList.ofList [(1, 10), (1, 20)]) 1 (1, 30)
      (by decide)).1,
   (getData_first_match_shadows (TypeList.ofList [(1, 10), (1, 20)]) 1 (1, 30)
      (by decide)).2 rfl⟩

/-- C9: if `GetFn::get` finds the callback `cb` registered under identity
`id`, then after mutating it in place through the returned mutable
reference (applying `f`), looking `id` up again returns the mutated
value `f cb`, not a stale copy; the chain's structural skeleton (data
nodes and callback identities) is unchanged by the mutation. -/
theorem getFn_after_modifyFn {D CT CB : Type} [DecidableEq CT]
    (c : TypeList (FEntry D CT CB)) (id : CT) (cb : CB) (f : CB → CB)
    (h : getFn id c = some cb) :
    getFn id (modifyFn id f c) = some (f cb)
    ∧ chainSkel (modifyFn id f c) = chainSkel c := by
  induction c with
  | empty => simp [getFn] at h
  | with_ d n ih =>
    cases d with
    | plain d0 =>
      have h' : getFn id n = some cb := h
      have := ih h'
      exact ⟨this.1, by simp [modifyFn, chainSkel, TypeList.toList] at this ⊢; exact this.2⟩
    | fnc cid cb0 =>
      by_cases hc : cid = id
      · subst hc
        have hcb : cb0 = cb := by simpa [getFn] using h
        subst hcb
        simp [modifyFn, getFn, chainSkel, TypeList.toList, FEntry.skel]
      · simp only [getFn, if_neg hc] at h
        have := ih h
        refine ⟨?_, ?_⟩
        · simp [modifyFn, if_neg hc, getFn, this.1]
        · simp [modifyFn, if_neg hc, chainSkel, TypeList.toList] at this ⊢
          exact this.2

/-- C9 witness: a chain holding the callback value 10 under identity 1
(behind a data node); adding 5 through the reference returned by lookup
and looking identity 1 up again returns 15, and the skeleton is
unchanged. -/
theorem getFn_after_modifyFn_witness :
    getFn 1 (modifyFn 1 (fun x => x + 5)
        (TypeList.with_ (FEntry.plain (0 : Nat))
          (TypeList.with_ (FEntry.fnc (1 : Nat) (10 : Nat)) TypeList.empty)))
      = some 15
    ∧ chainSkel (modifyFn 1 (fun x => x + 5)
        (TypeList.with_ (FEntry.plain (0 : Nat))
          (TypeList.with_ (FEntry.fnc (1 : Nat) (10 : Nat)) TypeList.empty)))
      = chainSkel (TypeList.with_ (FEntry.plain (0 : Nat))
          (TypeList.with_ (FEntry.fnc (1 : Nat) (10 : Nat)) TypeList.empty)) :=
  getFn_after_modifyFn
    (TypeList.with_ (FEntry.plain 0)
      (TypeList.with_ (FEntry.fnc 1 10) TypeList.empty))
    1 10 (fun x => x + 5) rfl

section VecTheorems

variable {T U : Type} {N : Nat}

/-- The short-circuiting loop of `apply_binary_bool` returns true from
index `i` exactly when the elementwise predicate holds at every index
from `i` on. -/
theorem vec.apply_binary_bool_loop_true_iff (v : vec T N) (rhs : vec U N)
    (op : T → U → Bool) :
    ∀ (k i : Nat), N ≤ i + k →
      (vec.apply_binary_bool_loop v rhs op i = true ↔
        ∀ j, i ≤ j → ∀ (h : j < N), op (v.data ⟨j, h⟩) (rhs.data ⟨j, h⟩) = true) := by
  intro k
  induction k with
  | zero =>
    intro i hi
    have hni : ¬ i < N := by omega
    rw [vec.apply_binary_bool_loop, dif_neg hni]
    simp only [true_iff]
    intro j hij hj
    omega
  | succ k ih =>
    intro i hi
    rw [vec.apply_binary_bool_loop]
    by_cases h : i < N
    · rw [dif_pos h]
      by_cases hop : op (v.data ⟨i, h⟩) (rhs.data ⟨i, h⟩) = true
      · rw [if_pos hop, ih (i + 1) (by omega)]
        constructor
        · intro hall j hij hj
          rcases Nat.eq_or_lt_of_le hij with he | hlt
          · subst he; exact hop
          · exact hall j hlt hj
        · intro hall j hij hj
          exact hall j (by omega) hj
      · rw [if_neg hop]
        constructor
        · intro hfalse
          exact absurd hfalse (by decide)
        · intro hall
          exact absurd (hall i (Nat.le_refl i) h) hop
    · rw [dif_neg h]
      simp only [true_iff]
      intro j hij hj
      omega

/-- `apply_binary_bool` is the logical AND of the elementwise
predicate. -/
theorem vec.apply_binary_bool_true_iff (v : vec T N) (rhs : vec U N)
    (op : T → U → Bool) :
    vec.apply_binary_bool v rhs op = true ↔
      ∀ i : Fin N, op (v.data i) (rhs.data i) = true := by
  rw [vec.apply_binary_bool,
    vec.apply_binary_bool_loop_true_iff v rhs op N 0 (by omega)]
  constructor
  · intro hall i
    exact hall i.val (Nat.zero_le _) i.isLt
  · intro hall j _ hj
    exact hall ⟨j, hj⟩

/-- C4 counterexample: the claim that `a == a` always holds for every
vector over an element type with PartialEq is false: Rust's PartialEq
admits non-reflexive element equalities (floating point NaN being the
standard library case), and for the everywhere-false element equality
on a 1-element vector, `eqv` (the `PartialEq for vec` impl) returns
false on identical arguments. -/
theorem vec_eq_refl_counterexample :
    vec.eqv (fun _ _ => false) (vec.single () : vec Unit 1) (vec.single ()) = false := by
  rw [vec.eqv, Bool.eq_false_iff]
  intro h
  have := (vec.apply_binary_bool_true_iff (vec.single ()) (vec.single ())
    (fun _ _ => false)).mp h ⟨0, by omega⟩
  simp at this

/-- C4 (amended): for vectors `a`, `b` of the same size over an element
type with an element equality `eqT` (Rust `PartialEq`), `a == b` (the
`PartialEq for vec` impl, computed by `apply_binary_bool`, the
short-circuiting logical AND of the elementwise predicate) holds iff
all elementwise pairs are equal under `eqT`; `a == a` holds whenever
`eqT` is reflexive on `a`'s elements — in particular for every
reflexive (`Eq`-like) element equality — but not for an arbitrary
PartialEq. -/
theorem vec_eq_iff_elementwise {T : Type} {N : Nat} (eqT : T → T → Bool)
    (a b : vec T N) :
    (vec.eqv eqT a b = true ↔ ∀ i : Fin N, eqT (a.get i) (b.get i) = true)
    ∧ ((∀ i : Fin N, eqT (a.get i) (a.get i) = true) → vec.eqv eqT a a = true) := by
  refine ⟨vec.apply_binary_bool_true_iff a b eqT, ?_⟩
  intro hrefl
  exact (vec.apply_binary_bool_true_iff a a eqT).mpr hrefl

/-- C4 witness: for the Boolean element equality and the concrete
2-element vector of `true`s, `a == a` evaluates to true. -/
theorem vec_eq_iff_elementwise_witness :
    vec.eqv (fun x y : Bool => x == y) (vec.single true : vec Bool 2)
      (vec.single true) = true :=
  (vec_eq_iff_elementwise (fun x y : Bool => x == y) (vec.single true)
    (vec.single true)).2 (by decide)

/-- C8: for vectors `a`, `b` of equal size `N` over an addable element
type, every index `i < N` satisfies `(a + b)[i] == a[i] + b[i]`; the `+`
operator is exactly `apply_binary` instantiated with the element
addition, so the generated operator agrees pointwise with the element
operation. -/
theorem vec_add_elementwise {T : Type} [Add T] {N : Nat} (a b : vec T N) :
    (∀ i : Fin N, (a + b).get i = a.get i + b.get i)
    ∧ a + b = a.apply_binary b (fun x y => x + y) :=
  ⟨fun _ => rfl, rfl⟩

end VecTheorems

section PieceTheorems

theorem writesOfList_append {T : Type} (a b : List T) :
    ∀ o, writesOfList (a ++ b) o = writesOfList a o ++ writesOfList b (o + a.length) := by
  induction a with
  | nil => intro o; simp [writesOfList]
  | cons v vs ih =>
    intro o
    show (o, v) :: writesOfList (vs ++ b) (o + 1)
        = ((o, v) :: writesOfList vs (o + 1)) ++ writesOfList b (o + (v :: vs).length)
    rw [List.cons_append, ih (o + 1), List.length_cons]
    have harith : o + 1 + vs.length = o + (vs.length + 1) := by omega
    rw [harith]

mutual

theorem Piece.length_flatten {T : Type} (p : Piece T) (h : p.wfm = true) :
    p.flatten.length = p.slots := by
  cases p with
  | scalar v => rfl
  | arr k es =>
    rw [Piece.wfm, Bool.and_eq_true] at h
    exact PieceList.length_flattenAll_stride k es h.1 h.2
  | vecp k es =>
    rw [Piece.wfm, Bool.and_eq_true] at h
    exact PieceList.length_flattenAll_stride k es h.1 h.2
  | tup es =>
    rw [Piece.wfm, Bool.and_eq_true] at h
    exact PieceList.length_flattenAll_seq es h.2

theorem PieceList.length_flattenAll_stride {T : Type} (k : Nat) (es : PieceList T)
    (h1 : es.allWf = true) (h2 : es.allSlots k = true) :
    es.flattenAll.length = es.len * k := by
  cases es with
  | nil => simp [PieceList.flattenAll, PieceList.len]
  | cons p ps =>
    rw [PieceList.allWf, Bool.and_eq_true] at h1
    rw [PieceList.allSlots, Bool.and_eq_true, decide_eq_true_eq] at h2
    rw [PieceList.flattenAll, List.length_append,
      Piece.length_flatten p h1.1,
      PieceList.length_flattenAll_stride k ps h1.2 h2.2,
      PieceList.len, h2.1, Nat.succ_mul, Nat.add_comm]

theorem PieceList.length_flattenAll_seq {T : Type} (es : PieceList T)
    (h : es.allWf = true) :
    es.flattenAll.length = es.sumSlots := by
  cases es with
  | nil => rfl
  | cons p ps =>
    rw [PieceList.allWf, Bool.and_eq_true] at h
    rw [PieceList.flattenAll, List.length_append,
      Piece.length_flatten p h.1,
      PieceList.length_flattenAll_seq ps h.2, PieceList.sumSlots]

end

mutual

/-- Under the well-formedness imposed by Rust's types, `embed` at offset
`o` writes exactly the converted inputs at consecutive indices starting
at `o`. -/
theorem Piece.writes_eq_writesOfList {T : Type} (p : Piece T) (h : p.wfm = true) :
    ∀ o, p.writes o = writesOfList p.flatten o := by
  cases p with
  | scalar v => intro o; rfl
  | arr k es =>
    rw [Piece.wfm, Bool.and_eq_true] at h
    exact PieceList.writesStride_eq_writesOfList k es h.1 h.2
  | vecp k es =>
    rw [Piece.wfm, Bool.and_eq_true] at h
    exact PieceList.writesStride_eq_writesOfList k es h.1 h.2
  | tup es =>
    rw [Piece.wfm, Bool.and_eq_true] at h
    exact PieceList.writesSeq_eq_writesOfList es h.2

theorem PieceList.writesStride_eq_writesOfList {T : Type} (k : Nat) (es : PieceList T)
    (h1 : es.allWf = true) (h2 : es.allSlots k = true) :
    ∀ o, es.writesStride k o = writesOfList es.flattenAll o := by
  cases es with
  | nil => intro o; rfl
  | cons p ps =>
    intro o
    rw [PieceList.allWf, Bool.and_eq_true] at h1
    rw [PieceList.allSlots, Bool.and_eq_true, decide_eq_true_eq] at h2
    rw [PieceList.writesStride, PieceList.flattenAll, writesOfList_append,
      Piece.writes_eq_writesOfList p h1.1 o,
      PieceList.writesStride_eq_writesOfList k ps h1.2 h2.2 (o + k),
      Piece.length_flatten p h1.1, h2.1]

theorem PieceList.writesSeq_eq_writesOfList {T : Type} (es : PieceList T)
    (h : es.allWf = true) :
    ∀ o, es.writesSeq o = writesOfList es.flattenAll o := by
  cases es with
  | nil => intro o; rfl
  | cons p ps =>
    intro o
    rw [PieceList.allWf, Bool.and_eq_true] at h
    rw [PieceList.writesSeq, PieceList.flattenAll, writesOfList_append,
      Piece.writes_eq_writesOfList p h.1 o,
      PieceList.writesSeq_eq_writesOfList ps h.2 (o + p.slots),
      Piece.length_flatten p h.1]

end

/-- Applying the consecutive writes of a list `l` starting at offset `o`
yields `l`'s elements on `[o, o + |l|)` and leaves every other index at
its previous content. -/
theorem applyWrites_writesOfList {T : Type} (l : List T) :
    ∀ (o : Nat) (m : Nat → Option T) (i : Nat),
      applyWrites m (writesOfList l o) i
        = if o ≤ i ∧ i < o + l.length then l[i - o]? else m i := by
  induction l with
  | nil =>
    intro o m i
    simp only [writesOfList, applyWrites, List.length_nil]
    rw [if_neg (by omega)]
  | cons v vs ih =>
    intro o m i
    simp only [writesOfList, applyWrites, List.length_cons]
    rw [ih (o + 1)]
    by_cases h1 : o + 1 ≤ i ∧ i < o + 1 + vs.length
    · rw [if_pos h1, if_pos (by omega)]
      have hio : i - o = (i - (o + 1)) + 1 := by omega
      rw [hio, List.getElem?_cons_succ]
    · rw [if_neg h1]
      by_cases h2 : i = o
      · subst h2
        rw [if_pos rfl, if_pos (by omega)]
        simp
      · rw [if_neg (fun he => h2 he), if_neg (by omega)]

theorem mem_writeIndices_writesOfList {T : Type} (l : List T) :
    ∀ (o i : Nat), i ∈ writeIndices (writesOfList l o) ↔ o ≤ i ∧ i < o + l.length := by
  induction l with
  | nil => intro o i; simp [writesOfList, writeIndices]
  | cons v vs ih =>
    intro o i
    simp only [writesOfList, writeIndices, List.map_cons, List.mem_cons, List.length_cons]
    rw [show List.map Prod.fst (writesOfList vs (o + 1)) = writeIndices (writesOfList vs (o + 1)) from rfl,
      ih (o + 1)]
    omega

/-- C1: calling `vec<T, N>`'s variadic constructor `New::call` with
pieces whose slot counts sum to `S`: if `S ≤ N`, construction succeeds,
every slot `i < S` holds the corresponding converted input in
left-to-right emission order, and the trailing `N - S` slots hold `T`'s
default value (covering both `S == N`, with no trailing slots, and
`S < N`); if `S > N`, construction fails with the "too many args" error
and no vec is produced — there is no silent truncation. -/
theorem new_call_embeds_then_defaults {T : Type} (d : T) (args : Piece T) (N : Nat)
    (hwf : args.wfm = true) :
    (args.slots ≤ N →
      ∃ m, New.call N d args = .ok m
        ∧ (∀ i, i < args.slots → m i = args.flatten[i]?)
        ∧ (∀ i, args.slots ≤ i → i < N → m i = some d))
    ∧ (N < args.slots → New.call N d args = .error "too many args") := by
  constructor
  · intro hle
    refine ⟨applyWrites (applyWrites (uninitMem T) (fillWrites args.slots N d))
      (args.writes 0), ?_, ?_, ?_⟩
    · simp only [New.call]
      rw [if_pos hle]
    · intro i hi
      rw [Piece.writes_eq_writesOfList args hwf 0, applyWrites_writesOfList,
        Piece.length_flatten args hwf,
        if_pos ⟨Nat.zero_le i, by omega⟩]
      simp
    · intro i h1 h2
      rw [Piece.writes_eq_writesOfList args hwf 0, applyWrites_writesOfList,
        Piece.length_flatten args hwf,
        if_neg (by omega), fillWrites, applyWrites_writesOfList,
        List.length_replicate,
        if_pos ⟨h1, by omega⟩, List.getElem?_replicate,
        if_pos (by omega)]
  · intro hgt
    simp only [New.call]
    rw [if_neg (by omega)]

/-- C1 witness: `new` on the 2-slot argument pack `(7, [8])` with target
size 3 produces slots `7, 8` followed by one default `0`. -/
theorem new_call_embeds_then_defaults_witness :
    ∃ m, New.call 3 0 (Piece.tup (.cons (.scalar (7 : Nat))
        (.cons (.arr 1 (.cons (.scalar 8) .nil)) .nil))) = .ok m
      ∧ (∀ i, i < (Piece.tup (.cons (.scalar (7 : Nat))
          (.cons (.arr 1 (.cons (.scalar 8) .nil)) .nil))).slots →
          m i = (Piece.tup (.cons (.scalar (7 : Nat))
            (.cons (.arr 1 (.cons (.scalar 8) .nil)) .nil))).flatten[i]?)
      ∧ (∀ i, (Piece.tup (.cons (.scalar (7 : Nat))
          (.cons (.arr 1 (.cons (.scalar 8) .nil)) .nil))).slots ≤ i → i < 3 →
          m i = some 0) :=
  (new_call_embeds_then_defaults 0
    (Piece.tup (.cons (.scalar 7) (.cons (.arr 1 (.cons (.scalar 8) .nil)) .nil)))
    3 (by decide)).1 (by decide)

/-- C10: under the checked precondition `Args::N <= N`, every memory
write of `New::call` is within the `N`-element storage: the default-fill
loop, whose pointer is seeded by the unchecked access at index
`Args::N`, writes only indices in `[Args::N, N)`; in the boundary case
`Args::N == N` it performs zero iterations (so the seed is never
dereferenced); and the `embed` of the argument pack writes only indices
below `N`. -/
theorem new_call_accesses_in_bounds {T : Type} (d : T) (args : Piece T) (N : Nat)
    (hwf : args.wfm = true) (hle : args.slots ≤ N) :
    (∀ i ∈ writeIndices (fillWrites args.slots N d), args.slots ≤ i ∧ i < N)
    ∧ (args.slots = N → fillWrites args.slots N d = [])
    ∧ (∀ i ∈ writeIndices (args.writes 0), i < N) := by
  refine ⟨?_, ?_, ?_⟩
  · intro i hi
    rw [fillWrites, mem_writeIndices_writesOfList, List.length_replicate] at hi
    omega
  · intro he
    rw [fillWrites, he, Nat.sub_self, List.replicate_zero]
    rfl
  · intro i hi
    rw [Piece.writes_eq_writesOfList args hwf 0, mem_writeIndices_writesOfList,
      Piece.length_flatten args hwf] at hi
    omega

/-- C10 witness: the boundary case `Args::N == N` with the 2-slot pack
`[(1, 2)]` (an array of one 2-slot tuple) and target size 2: the fill
loop touches nothing and the embed writes only indices 0 and 1. -/
theorem new_call_accesses_in_bounds_witness :
    (∀ i ∈ writeIndices (fillWrites
        (Piece.arr 2 (.cons (.tup (.cons (.scalar (1 : Nat))
          (.cons (.scalar 2) .nil))) .nil)).slots 2 (0 : Nat)),
        (Piece.arr 2 (.cons (.tup (.cons (.scalar (1 : Nat))
          (.cons (.scalar 2) .nil))) .nil)).slots ≤ i ∧ i < 2)
    ∧ ((Piece.arr 2 (.cons (.tup (.cons (.scalar (1 : Nat))
        (.cons (.scalar 2) .nil))) .nil)).slots = 2 →
        fillWrites (Piece.arr 2 (.cons (.tup (.cons (.scalar (1 : Nat))
          (.cons (.scalar 2) .nil))) .nil)).slots 2 (0 : Nat) = [])
    ∧ (∀ i ∈ writeIndices ((Piece.arr 2 (.cons (.tup (.cons (.scalar (1 : Nat))
        (.cons (.scalar 2) .nil))) .nil)).writes 0), i < 2) :=
  new_call_accesses_in_bounds 0
    (Piece.arr 2 (.cons (.tup (.cons (.scalar 1) (.cons (.scalar 2) .nil))) .nil))
    2 (by decide) (by decide)

end PieceTheorems

section BuilderTheorems

variable {CB : Type}

theorem isInitInvocation_effect (e : WEffect) :
    isInitInvocation (TraceEv.effect e : TraceEv CB) = false := rfl

theorem isInitInvocation_windowBuilt :
    isInitInvocation (TraceEv.windowBuilt : TraceEv CB) = false := rfl

theorem isInitInvocation_loopStarted :
    isInitInvocation (TraceEv.loopStarted : TraceEv CB) = false := rfl

theorem isInitInvocation_invoked_onInit (cb : CB) :
    isInitInvocation (TraceEv.invoked BTag.onInit cb) = true := rfl

theorem isInitInvocation_invoked_onClose (cb : CB) :
    isInitInvocation (TraceEv.invoked BTag.onClose cb) = false := rfl

theorem isInitInvocation_invoked_onExit (cb : CB) :
    isInitInvocation (TraceEv.invoked BTag.onExit cb) = false := rfl

/-- The event-loop closure never invokes the `on_init` callback: its
match arms only look up `on_exit` and `on_close`. -/
theorem runLoop_countP_init (c : TypeList (BEntry CB)) :
    ∀ (ev : List InEvent) (ex : Bool),
      List.countP (fun e => isInitInvocation e) (WindowBuilder.runLoop c ev ex) = 0 := by
  intro ev
  induction ev with
  | nil => intro ex; rfl
  | cons e rest ih =>
    intro ex
    cases ex with
    | true => exact ih true
    | false =>
      cases e with
      | userClose =>
        show List.countP (fun e => isInitInvocation e)
          ((match WindowBuilder.on_exit c with
            | some cb => [TraceEv.invoked BTag.onExit cb]
            | none => []) ++ WindowBuilder.runLoop c rest true) = 0
        cases hoe : WindowBuilder.on_exit c with
        | some cb =>
          simp [List.countP_append, List.countP_cons,
            isInitInvocation_invoked_onExit, ih]
        | none => simp [ih]
      | closeRequested =>
        show List.countP (fun e => isInitInvocation e)
          ((match WindowBuilder.on_close c with
            | some cb => [TraceEv.invoked BTag.onClose cb]
            | none => []) ++ WindowBuilder.runLoop c rest false) = 0
        cases hoc : WindowBuilder.on_close c with
        | some cb =>
          simp [List.countP_append, List.countP_cons,
            isInitInvocation_invoked_onClose, ih]
        | none => simp [ih]
      | otherEvent => exact ih false

/-- C5: on a builder chain with both `size` and `maximized` set, the
terminal `create` fails at build time with the assertion message naming
both conflicting fields, for either outcome of the external window
construction; a chain without `maximized` set (in particular one with
only `size`), or one with only `maximized` set, does not fail this
conflict check and `create` succeeds when the external construction
does. -/
theorem create_conflict_size_maximized (c₁ c₂ c₃ : TypeList (BEntry CB))
    (ev : List InEvent) :
    ((WindowBuilder.size c₁).isSome → (WindowBuilder.maximized c₁).isSome →
      ∀ b, WindowBuilder.create c₁ ev b = .error "cannot have both `size` and `maximized`")
    ∧ ((WindowBuilder.size c₂).isSome → (WindowBuilder.maximized c₂).isNone →
      ∃ tr, WindowBuilder.create c₂ ev true = .ok tr)
    ∧ ((WindowBuilder.maximized c₃).isSome → (WindowBuilder.size c₃).isNone →
      (WindowBuilder.size_is_logical c₃).isNone →
      ∃ tr, WindowBuilder.create c₃ ev true = .ok tr) := by
  refine ⟨?_, ?_, ?_⟩
  · intro h1 h2 b
    obtain ⟨⟨w, h⟩, hs⟩ := Option.isSome_iff_exists.mp h1
    simp [WindowBuilder.create, hs, h2]
  · intro h1 h2
    obtain ⟨⟨w, h⟩, hs⟩ := Option.isSome_iff_exists.mp h1
    have h2' : WindowBuilder.maximized c₂ = none := Option.isNone_iff_eq_none.mp h2
    simp [WindowBuilder.create, hs, h2']
  · intro h1 h2 h3
    have h2' : WindowBuilder.size c₃ = none := Option.isNone_iff_eq_none.mp h2
    have h3' : WindowBuilder.size_is_logical c₃ = none := Option.isNone_iff_eq_none.mp h3
    simp [WindowBuilder.create, h2', h3']

/-- C5 witness: with both `size` and `maximized` set `create` panics with
the conflict message; with only `size`, and with only `maximized`, it
succeeds. -/
theorem create_conflict_size_maximized_witness :
    WindowBuilder.create
        (TypeList.with_ (BEntry.size 5 6) (TypeList.with_ BEntry.maximized TypeList.empty)
          : TypeList (BEntry Nat)) [] true
      = .error "cannot have both `size` and `maximized`"
    ∧ (∃ tr, WindowBuilder.create
        (TypeList.with_ (BEntry.size 5 6) TypeList.empty : TypeList (BEntry Nat)) [] true
      = .ok tr)
    ∧ (∃ tr, WindowBuilder.create
        (TypeList.with_ BEntry.maximized TypeList.empty : TypeList (BEntry Nat)) [] true
      = .ok tr) :=
  ⟨(create_conflict_size_maximized
      (TypeList.with_ (BEntry.size 5 6) (TypeList.with_ BEntry.maximized TypeList.empty))
      (TypeList.with_ (BEntry.size 5 6) TypeList.empty)
      (TypeList.with_ BEntry.maximized TypeList.empty) []).1 (by decide) (by decide) true,
   (create_conflict_size_maximized
      (TypeList.with_ (BEntry.size 5 6) (TypeList.with_ BEntry.maximized TypeList.empty))
      (TypeList.with_ (BEntry.size 5 6) TypeList.empty)
      (TypeList.with_ BEntry.maximized TypeList.empty) []).2.1 (by decide) (by decide),
   (create_conflict_size_maximized
      (TypeList.with_ (BEntry.size 5 6) (TypeList.with_ BEntry.maximized TypeList.empty))
      (TypeList.with_ (BEntry.size 5 6) TypeList.empty)
      (TypeList.with_ BEntry.maximized TypeList.empty) []).2.2 (by decide) (by decide)
      (by decide)⟩

/-- C6: on a chain with `size_is_logical` set but `size` absent, `create`
panics at build time with the requires message, for either outcome of
the external construction; with both set (and no conflicting
`maximized`), `create` succeeds and the applied inner-size effect is the
logical variant `WinitSize::Logical`, while with `size` set and
`size_is_logical` absent it is the physical variant
`WinitSize::Physical`. -/
theorem create_size_is_logical_requires_size (c₁ c₂ c₃ : TypeList (BEntry CB))
    (ev : List InEvent) (w h w3 h3 : Nat) :
    ((WindowBuilder.size_is_logical c₁).isSome → (WindowBuilder.size c₁).isNone →
      ∀ b, WindowBuilder.create c₁ ev b
        = .error "cannot have specification that `size` is logical without specification of the `size` itself")
    ∧ (WindowBuilder.size c₂ = some (w, h) → (WindowBuilder.size_is_logical c₂).isSome →
      (WindowBuilder.maximized c₂).isNone →
      ∃ tr, WindowBuilder.create c₂ ev true = .ok tr
        ∧ TraceEv.effect (WEffect.withInnerSize (WinitSize.Logical w h)) ∈ tr)
    ∧ (WindowBuilder.size c₃ = some (w3, h3) → (WindowBuilder.size_is_logical c₃).isNone →
      (WindowBuilder.maximized c₃).isNone →
      ∃ tr, WindowBuilder.create c₃ ev true = .ok tr
        ∧ TraceEv.effect (WEffect.withInnerSize (WinitSize.Physical w3 h3)) ∈ tr) := by
  refine ⟨?_, ?_, ?_⟩
  · intro h1 h2 b
    have h2' : WindowBuilder.size c₁ = none := Option.isNone_iff_eq_none.mp h2
    obtain ⟨u, hl⟩ := Option.isSome_iff_exists.mp h1
    simp [WindowBuilder.create, h2', hl]
  · intro hs hlog hmax
    obtain ⟨u, hl⟩ := Option.isSome_iff_exists.mp hlog
    have hmax' : WindowBuilder.maximized c₂ = none := Option.isNone_iff_eq_none.mp hmax
    simp [WindowBuilder.create, hs, hl, hmax']
  · intro hs hlog hmax
    have hl : WindowBuilder.size_is_logical c₃ = none := Option.isNone_iff_eq_none.mp hlog
    have hmax' : WindowBuilder.maximized c₃ = none := Option.isNone_iff_eq_none.mp hmax
    simp [WindowBuilder.create, hs, hl, hmax']

/-- C6 witness: `size_is_logical` without `size` panics with the requires
message; with `size (7, 9)` the applied inner size is `Logical 7 9` when
`size_is_logical` is set and `Physical 7 9` when it is not. -/
theorem create_size_is_logical_requires_size_witness :
    WindowBuilder.create
        (TypeList.with_ BEntry.sizeIsLogical TypeList.empty : TypeList (BEntry Nat)) [] true
      = .error "cannot have specification that `size` is logical without specification of the `size` itself"
    ∧ (∃ tr, WindowBuilder.create
          (TypeList.with_ BEntry.sizeIsLogical
            (TypeList.with_ (BEntry.size 7 9) TypeList.empty) : TypeList (BEntry Nat)) [] true
        = .ok tr
        ∧ TraceEv.effect (WEffect.withInnerSize (WinitSize.Logical 7 9)) ∈ tr)
    ∧ (∃ tr, WindowBuilder.create
          (TypeList.with_ (BEntry.size 7 9) TypeList.empty : TypeList (BEntry Nat)) [] true
        = .ok tr
        ∧ TraceEv.effect (WEffect.withInnerSize (WinitSize.Physical 7 9)) ∈ tr) :=
  ⟨(create_size_is_logical_requires_size
      (TypeList.with_ BEntry.sizeIsLogical TypeList.empty)
      (TypeList.with_ BEntry.sizeIsLogical
        (TypeList.with_ (BEntry.size 7 9) TypeList.empty))
      (TypeList.with_ (BEntry.size 7 9) TypeList.empty)
      [] 7 9 7 9).1 (by decide) (by decide) true,
   (create_size_is_logical_requires_size
      (TypeList.with_ BEntry.sizeIsLogical TypeList.empty)
      (TypeList.with_ BEntry.sizeIsLogical
        (TypeList.with_ (BEntry.size 7 9) TypeList.empty))
      (TypeList.with_ (BEntry.size 7 9) TypeList.empty)
      [] 7 9 7 9).2.1 (by decide) (by decide) (by decide),
   (create_size_is_logical_requires_size
      (TypeList.with_ BEntry.sizeIsLogical TypeList.empty)
      (TypeList.with_ BEntry.sizeIsLogical
        (TypeList.with_ (BEntry.size 7 9) TypeList.empty))
      (TypeList.with_ (BEntry.size 7 9) TypeList.empty)
      [] 7 9 7 9).2.2 (by decide) (by decide) (by decide)⟩

/-- C7: on a chain with an `on_init` callback registered, a successful
`create` produces a trace in which, after the effects applied to the
external builder and the window construction, the `on_init` callback is
invoked exactly once, strictly before the event loop starts; the
dispatch of the delivered events never invokes it again. -/
theorem create_invokes_init_once (c : TypeList (BEntry CB)) (ev : List InEvent)
    (cb : CB) (tr : List (TraceEv CB))
    (hinit : WindowBuilder.on_init c = some cb)
    (hok : WindowBuilder.create c ev true = .ok tr) :
    ∃ effs, (∀ e ∈ effs, ∃ wef, e = TraceEv.effect wef)
      ∧ tr = effs ++ [TraceEv.windowBuilt, TraceEv.invoked BTag.onInit cb,
          TraceEv.loopStarted] ++ WindowBuilder.runLoop c ev false
      ∧ List.countP (fun e => isInitInvocation e) tr = 1
      ∧ List.countP (fun e => isInitInvocation e) (WindowBuilder.runLoop c ev false) = 0 := by
  have hrl := runLoop_countP_init c ev false
  cases hsz : WindowBuilder.size c with
  | some wh =>
    obtain ⟨w, h⟩ := wh
    by_cases hmax : (WindowBuilder.maximized c).isSome
    · simp [WindowBuilder.create, hsz, hmax] at hok
    · simp [WindowBuilder.create, hsz, hmax, hinit] at hok
      subst hok
      refine ⟨[TraceEv.effect (WEffect.withTitle (match WindowBuilder.title c with
          | some s => s
          | none => "rokoko window")),
        TraceEv.effect (WEffect.withInnerSize (match WindowBuilder.size_is_logical c with
          | some _ => WinitSize.Logical w h
          | none => WinitSize.Physical w h))], ?_, ?_, ?_, hrl⟩
      · intro e he
        simp only [List.mem_cons, List.not_mem_nil, or_false] at he
        rcases he with rfl | rfl
        · exact ⟨_, rfl⟩
        · exact ⟨_, rfl⟩
      · simp
      · simp [List.countP_cons, List.countP_append, isInitInvocation_effect,
          isInitInvocation_windowBuilt, isInitInvocation_loopStarted,
          isInitInvocation_invoked_onInit, hrl]
  | none =>
    by_cases hlg : (WindowBuilder.size_is_logical c).isSome
    · simp [WindowBuilder.create, hsz, hlg] at hok
    · by_cases hmax : (WindowBuilder.maximized c).isSome
      · simp [WindowBuilder.create, hsz, hlg, hmax, hinit] at hok
        subst hok
        refine ⟨[TraceEv.effect (WEffect.withTitle (match WindowBuilder.title c with
            | some s => s
            | none => "rokoko window")),
          TraceEv.effect (WEffect.withMaximized true)], ?_, ?_, ?_, hrl⟩
        · intro e he
          simp only [List.mem_cons, List.not_mem_nil, or_false] at he
          rcases he with rfl | rfl
          · exact ⟨_, rfl⟩
          · exact ⟨_, rfl⟩
        · simp
        · simp [List.countP_cons, List.countP_append, isInitInvocation_effect,
            isInitInvocation_windowBuilt, isInitInvocation_loopStarted,
            isInitInvocation_invoked_onInit, hrl]
      · simp [WindowBuilder.create, hsz, hlg, hmax, hinit] at hok
        subst hok
        refine ⟨[TraceEv.effect (WEffect.withTitle (match WindowBuilder.title c with
            | some s => s
            | none => "rokoko window"))], ?_, ?_, ?_, hrl⟩
        · intro e he
          simp only [List.mem_cons, List.not_mem_nil, or_false] at he
          rcases he with rfl
          exact ⟨_, rfl⟩
        · simp
        · simp [List.countP_cons, List.countP_append, isInitInvocation_effect,
            isInitInvocation_windowBuilt, isInitInvocation_loopStarted,
            isInitInvocation_invoked_onInit, hrl]

/-- C7 witness: a chain registering the `on_init` callback 0, driven with
a close-request followed by a user close: the trace invokes the init
callback exactly once, between the window construction and the loop
start, and the dispatched events invoke it zero times. -/
theorem create_invokes_init_once_witness :
    ∃ effs, (∀ e ∈ effs, ∃ wef, e = TraceEv.effect wef)
      ∧ ([TraceEv.effect (WEffect.withTitle "rokoko window"), TraceEv.windowBuilt,
          TraceEv.invoked BTag.onInit (0 : Nat), TraceEv.loopStarted]
            : List (TraceEv Nat))
        = effs ++ [TraceEv.windowBuilt, TraceEv.invoked BTag.onInit 0,
            TraceEv.loopStarted]
          ++ WindowBuilder.runLoop (TypeList.with_ (BEntry.onInit 0) TypeList.empty)
              [InEvent.closeRequested, InEvent.userClose] false
      ∧ List.countP (fun e => isInitInvocation e)
          ([TraceEv.effect (WEffect.withTitle "rokoko window"), TraceEv.windowBuilt,
            TraceEv.invoked BTag.onInit (0 : Nat), TraceEv.loopStarted]
              : List (TraceEv Nat)) = 1
      ∧ List.countP (fun e => isInitInvocation e)
          (WindowBuilder.runLoop (TypeList.with_ (BEntry.onInit (0 : Nat)) TypeList.empty)
            [InEvent.closeRequested, InEvent.userClose] false) = 0 :=
  create_invokes_init_once (TypeList.with_ (BEntry.onInit 0) TypeList.empty)
    [InEvent.closeRequested, InEvent.userClose] 0
    [TraceEv.effect (WEffect.withTitle "rokoko window"), TraceEv.windowBuilt,
     TraceEv.invoked BTag.onInit 0, TraceEv.loopStarted] rfl rfl

end BuilderTheorems

end Rokoko
